import Mathlib

/-!
Shallow embedding of `src/app.js` (Imagem_PDF_Youtube_BE): an Express backend
with three routes (GET/POST /produtos, DELETE /produtos/:id) and a helper
`uploadBase64ToStorage` that parses a `data:` URL, decodes its base64 body and
uploads it to a blob store.

Strings are modelled as Lean `String`/`List Char`; the JavaScript string
operations used by the code (`split`, `startsWith`, `parseInt`,
`Buffer.from(_, 'base64')`, `toString('base64')`) are given explicit
executable models below.  External collaborators (the Vercel blob store and
the PostgreSQL repository reached through the absent `conexao` module) are
modelled by outcome oracles passed to the handlers, and each handler records
the externally visible calls it makes in an event list.
-/

set_option autoImplicit false

namespace ImagemPdf

/-! ### JavaScript `String.prototype.split` on a string separator -/

/-- Locate the first occurrence of the pattern `p` in `s`: returns the
segment strictly before the occurrence and the remainder strictly after it,
or `none` when `p` does not occur.  This is the search underlying
JavaScript's `String.prototype.split` with a string separator. -/
def firstSplit (p : List Char) : List Char → Option (List Char × List Char)
  | [] => none
  | c :: rest =>
    if p.isPrefixOf (c :: rest) then some ([], (c :: rest).drop p.length)
    else (firstSplit p rest).map (fun pr => (c :: pr.1, pr.2))

/-- Fuelled worker for `splitOnL`; the fuel only serves termination and is
irrelevant as soon as it exceeds the length of the input. -/
def splitOnFuel (p : List Char) : Nat → List Char → List (List Char)
  | 0, s => [s]
  | fuel + 1, s =>
    match firstSplit p s with
    | none => [s]
    | some (pre, post) => pre :: splitOnFuel p fuel post

/-- JavaScript `s.split(p)` for a nonempty string separator `p`: the list of
segments of `s` between the leftmost non-overlapping occurrences of `p`. -/
def splitOnL (p s : List Char) : List (List Char) :=
  splitOnFuel p (s.length + 1) s

/-! ### Occurrence counting and borderless patterns

`occCount p s` counts every position of `s` at which `p` occurs (overlaps
included).  For a pattern without a nontrivial border — such as the data-URL
delimiter `";base64,"` — occurrences cannot overlap, and the number of
segments produced by `split` is exactly `occCount + 1`. -/

/-- Number of positions of `s` at which the pattern `p` occurs. -/
def occCount (p : List Char) : List Char → Nat
  | [] => 0
  | c :: rest => (if p.isPrefixOf (c :: rest) then 1 else 0) + occCount p rest

/-- `p` has no nontrivial border: no proper nonempty prefix of `p` equals a
suffix of `p`. -/
def Borderless (p : List Char) : Prop :=
  ∀ j, j < p.length → (j = 0 ∨ p.take (p.length - j) ≠ p.drop j)

instance (p : List Char) : Decidable (Borderless p) :=
  decidable_of_iff
    (∀ j ∈ List.range p.length, j = 0 ∨ p.take (p.length - j) ≠ p.drop j)
    (by simp [Borderless])

/-! ### Base64: Node's `Buffer.from(str, 'base64')` and `buf.toString('base64')`

Bytes are modelled as natural numbers below 256 and 6-bit groups as natural
numbers below 64.  Node's base64 decoder is lenient: characters outside the
alphabet (the `=` padding and any junk) are skipped and leftover bits that do
not fill a whole byte are dropped; no validation is performed. -/

/-- The standard base64 alphabet, in value order. -/
def b64Alphabet : List Char :=
  "ABCDEFGHIJKLMNOPQRSTUVWXYZabcdefghijklmnopqrstuvwxyz0123456789+/".data

/-- Index of a character in a character list. -/
def charIndexIn (c : Char) : List Char → Option Nat
  | [] => none
  | d :: rest => if c = d then some 0 else (charIndexIn c rest).map (· + 1)

/-- The character for a 6-bit value. -/
def sextetChar (n : Nat) : Char := b64Alphabet.getD n '?'

/-- The 6-bit value of a base64 character: Node also accepts the RFC 4648
URL-safe alphabet, mapping `-` and `_` to 62 and 63; everything else outside
the alphabet (the padding character included) is `none`. -/
def sextetOfChar (c : Char) : Option Nat :=
  if c = '-' then some 62
  else if c = '_' then some 63
  else charIndexIn c b64Alphabet

/-- Regroup 6-bit values into 8-bit bytes, dropping leftover bits that do
not fill a whole byte. -/
def sextetsToBytes : List Nat → List Nat
  | s1 :: s2 :: s3 :: s4 :: rest =>
    (s1 * 4 + s2 / 16) :: (s2 % 16 * 16 + s3 / 4) :: (s3 % 4 * 64 + s4) ::
      sextetsToBytes rest
  | [s1, s2, s3] => [s1 * 4 + s2 / 16, s2 % 16 * 16 + s3 / 4]
  | [s1, s2] => [s1 * 4 + s2 / 16]
  | _ => []

/-- Node's `Buffer.from(str, 'base64')` on the character list of `str`. -/
def bufferFromBase64 (cs : List Char) : List Nat :=
  sextetsToBytes (cs.filterMap sextetOfChar)

/-- `buf.toString('base64')`: standard base64 encoding with `=` padding. -/
def bytesToBase64 : List Nat → List Char
  | a :: b :: c :: rest =>
    sextetChar (a / 4) :: sextetChar (a % 4 * 16 + b / 16) ::
      sextetChar (b % 16 * 4 + c / 64) :: sextetChar (c % 64) ::
      bytesToBase64 rest
  | [a, b] => [sextetChar (a / 4), sextetChar (a % 4 * 16 + b / 16),
      sextetChar (b % 16 * 4), '=']
  | [a] => [sextetChar (a / 4), sextetChar (a % 4 * 16), '=', '=']
  | [] => []

/-! ### The encoded-payload decoder (`uploadBase64ToStorage`, src/app.js:18-51) -/

/-- JavaScript `String.prototype.startsWith`. -/
def jsStartsWith (pre s : String) : Bool := pre.data.isPrefixOf s.data

/-- The `';base64,'` delimiter of the data-URL wire format. -/
def base64Delim : List Char := ";base64,".data

/-- Format check and field extraction of `uploadBase64ToStorage`
(src/app.js:19-28): the input must be non-empty, carry the `data:` scheme
prefix, and split into exactly two segments around `';base64,'`.  The
declared MIME type is the text between the first and second `':'` of the
header segment; the base64 body is the second segment.  `none` exactly when
the function throws before reaching the upload. -/
def parseDataUrl (dataUrl : String) : Option (String × List Char) :=
  if dataUrl.isEmpty || !jsStartsWith "data:" dataUrl then none
  else
    let parts := splitOnL base64Delim dataUrl.data
    if parts.length = 2 then
      let mimeType := (splitOnL [':'] (parts.headD [])).getD 1 []
      some (String.mk mimeType, parts.getD 1 [])
    else none

/-- The `extensaoMapeada` lookup table (src/app.js:32-37). -/
def extensaoMapeada (mimeType : String) : Option String :=
  if mimeType = "image/png" then some "png"
  else if mimeType = "image/jpeg" then some "jpg"
  else if mimeType = "application/pdf" then some "pdf"
  else if mimeType = "image/svg+xml" then some "svg"
  else none

/-- The own function-valued properties of `Object.prototype` inherited by
every object literal; reading any of these names off `extensaoMapeada`
yields a truthy built-in function, not `undefined`. -/
def objectProtoProps : List String :=
  ["constructor", "hasOwnProperty", "isPrototypeOf", "propertyIsEnumerable",
    "toLocaleString", "toString", "valueOf", "__defineGetter__",
    "__defineSetter__", "__lookupGetter__", "__lookupSetter__"]

/-- The value of a JavaScript property read `obj[key]` as it matters here:
a string from the object's own table, a truthy value inherited from
`Object.prototype` (a built-in function, or the prototype object itself for
the `__proto__` accessor), or `undefined`. -/
inductive JsProp where
  | str (s : String)
  | protoFn (name : String)
  | protoObj
  | undefinedValue
  deriving DecidableEq, Repr

/-- The JavaScript property read `extensaoMapeada[mimeType]`
(src/app.js:38): the four own keys are found on the object itself; any other
key is looked up along the prototype chain, where `Object.prototype`'s
members are found; only keys absent there give `undefined`. -/
def extensaoMapeadaGet (mimeType : String) : JsProp :=
  match extensaoMapeada mimeType with
  | some s => .str s
  | none =>
    if mimeType = "__proto__" then .protoObj
    else if mimeType ∈ objectProtoProps then .protoFn mimeType
    else .undefinedValue

/-- JavaScript truthiness of such a property value. -/
def JsProp.truthy : JsProp → Bool
  | .str s => !s.isEmpty
  | .protoFn _ => true
  | .protoObj => true
  | .undefinedValue => false

/-- `const extensao = extensaoMapeada[mimeType] || 'bin'` (src/app.js:38):
`||` keeps a truthy left operand, so inherited `Object.prototype` members
escape the `bin` fallback. -/
def extensao (mimeType : String) : JsProp :=
  if (extensaoMapeadaGet mimeType).truthy then extensaoMapeadaGet mimeType
  else .str "bin"

/-- Template-literal stringification of the value interpolated into the
filename (V8's text for built-in functions and for plain objects). -/
def JsProp.interp : JsProp → String
  | .str s => s
  | .protoFn name => "function " ++ name ++ "() \x7b [native code] \x7d"
  | .protoObj => "[object Object]"
  | .undefinedValue => "undefined"

/-- Base-36 digit characters (the alphabet of `Number.toString(36)`). -/
def base36Char (d : Nat) : Char :=
  "0123456789abcdefghijklmnopqrstuvwxyz".data.getD d '?'

/-- Modelled from ECMAScript: `Math.random().toString(36).substring(2, 9)`.
`rnd` is the list of fractional base-36 digits the runtime prints for the
drawn value in `[0, 1)` (empty for a draw of `0`, whose string `"0"` has
nothing at index 2); `substring(2, 9)` keeps at most the first seven. -/
def randomToken (rnd : List Nat) : List Char := (rnd.take 7).map base36Char

/-- The synthesized object key (src/app.js:41):
`` `${Date.now()}-${Math.random().toString(36).substring(2, 9)}.${extensao}` ``. -/
def nomeArquivo (now : Nat) (rnd : List Nat) (ext : String) : String :=
  String.mk ((toString now).data ++ '-' :: (randomToken rnd ++ '.' :: ext.data))

/-- Externally visible calls a handler makes, in order. -/
inductive Ev where
  | put (filename : String) (contents : List Nat) (contentType : String)
  | dbInsert (nome imagemUrl pdfUrl youtubeLink : String)
  | dbDelete (id : Int)
  | blobDel (url : String)
  deriving DecidableEq, Repr

/-- `uploadBase64ToStorage` (src/app.js:18-51), with the machine clock `now`,
the random draw `rnd` and the blob store's answer to `put` as explicit
parameters.  Returns the thrown-or-returned outcome together with the
external calls made: an invalid format throws before any call; otherwise
`put` is called exactly once and its outcome (public URL or upload error)
becomes the function's. -/
def uploadBase64ToStorage (now : Nat) (rnd : List Nat)
    (putOutcome : Except Unit String) (dataUrl : String) :
    Except Unit String × List Ev :=
  match parseDataUrl dataUrl with
  | none => (.error (), [])
  | some (mimeType, base64Data) =>
    let fileBuffer := bufferFromBase64 base64Data
    let nome := nomeArquivo now rnd ((extensao mimeType).interp)
    (putOutcome, [.put nome fileBuffer mimeType])

/-! ### JavaScript `parseInt` (used at src/app.js:122) -/

/-- The whitespace trimmed by `parseInt`: ECMAScript `StrWhiteSpace`, i.e.
`WhiteSpace` (TAB, VT, FF, SP, NBSP, ZWNBSP and the Unicode `Zs` category:
U+1680, U+2000..U+200A, U+202F, U+205F, U+3000) together with the line
terminators LF, CR, LS and PS. -/
def isJsSpace (c : Char) : Bool :=
  decide (c.toNat = 9 ∨ c.toNat = 10 ∨ c.toNat = 11 ∨ c.toNat = 12 ∨
    c.toNat = 13 ∨ c.toNat = 32 ∨ c.toNat = 160 ∨ c.toNat = 5760 ∨
    (8192 ≤ c.toNat ∧ c.toNat ≤ 8202) ∨ c.toNat = 8232 ∨ c.toNat = 8233 ∨
    c.toNat = 8239 ∨ c.toNat = 8287 ∨ c.toNat = 12288 ∨ c.toNat = 65279)

/-- Decimal digit value. -/
def digitVal10 (c : Char) : Option Nat :=
  if 48 ≤ c.toNat ∧ c.toNat ≤ 57 then some (c.toNat - 48) else none

/-- Hexadecimal digit value. -/
def digitVal16 (c : Char) : Option Nat :=
  if 48 ≤ c.toNat ∧ c.toNat ≤ 57 then some (c.toNat - 48)
  else if 97 ≤ c.toNat ∧ c.toNat ≤ 102 then some (c.toNat - 87)
  else if 65 ≤ c.toNat ∧ c.toNat ≤ 70 then some (c.toNat - 55)
  else none

/-- Accumulate the longest leading digit run; `none` when there is no
leading digit at all. -/
def parseDigits (radix : Nat) (dv : Char → Option Nat) :
    List Char → Option Nat → Option Nat
  | [], acc => acc
  | c :: rest, acc =>
    match dv c with
    | none => acc
    | some d => parseDigits radix dv rest (some (acc.getD 0 * radix + d))

/-- The unsigned part of JavaScript `parseInt(string)`: a `0x`/`0X` prefix
selects hexadecimal, otherwise the run is read in decimal. -/
def jsParseUnsigned (cs : List Char) : Option Nat :=
  match cs with
  | c0 :: c1 :: rest =>
    if c0.toNat = 48 ∧ (c1.toNat = 120 ∨ c1.toNat = 88) then
      parseDigits 16 digitVal16 rest none
    else parseDigits 10 digitVal10 cs none
  | _ => parseDigits 10 digitVal10 cs none

/-- JavaScript `parseInt(string)` with no radix argument: skip leading
whitespace, consume an optional sign, honour a `0x`/`0X` hexadecimal prefix,
read the longest leading digit run; `none` stands for `NaN`.  The digit run
is accumulated exactly — this agrees with `parseInt` for all values below
`2 ^ 53`, where the IEEE double it returns is exact; theorems quantifying
over digit runs carry that bound. -/
def jsParseInt (s : String) : Option Int :=
  match s.data.dropWhile isJsSpace with
  | [] => none
  | c :: rest =>
    if c.toNat = 43 then (jsParseUnsigned rest).map (fun v => (v : Int))
    else if c.toNat = 45 then (jsParseUnsigned rest).map (fun v => -(v : Int))
    else (jsParseUnsigned (c :: rest)).map (fun v => (v : Int))

/-- The value of a run of decimal digit characters. -/
def decimalVal (ds : List Char) : Nat :=
  ds.foldl (fun a c => a * 10 + (c.toNat - 48)) 0

/-! ### Data model and route handlers -/

/-- A row of the `produtos` table. -/
structure Product where
  id : Int
  nome : String
  imagem_url : String
  pdf_url : String
  youtube_link : String
  deriving DecidableEq, Repr

/-- External representation of a product (src/app.js:61-67 and 103-109). -/
structure ProductOut where
  id : Int
  name : String
  image : String
  pdfDataUrl : String
  youtubeLink : String
  deriving DecidableEq, Repr

/-- The column renaming applied by the GET and POST handlers. -/
def formatProduct (p : Product) : ProductOut :=
  { id := p.id, name := p.nome, image := p.imagem_url,
    pdfDataUrl := p.pdf_url, youtubeLink := p.youtube_link }

/-- The inverse renaming, external field names back to storage columns. -/
def unformatProduct (o : ProductOut) : Product :=
  { id := o.id, nome := o.name, imagem_url := o.image,
    pdf_url := o.pdfDataUrl, youtube_link := o.youtubeLink }

/-- The row order requested by the GET query: descending id. -/
def idDesc (a b : Product) : Prop := b.id ≤ a.id

instance : DecidableRel idDesc :=
  fun a b => inferInstanceAs (Decidable (b.id ≤ a.id))

instance : IsTotal Product idDesc := ⟨fun a b => Int.le_total b.id a.id⟩

instance : IsTrans Product idDesc :=
  ⟨fun _ _ _ h1 h2 => Int.le_trans h2 h1⟩

/-- Modelled from the spec: the repository's execution of
`SELECT id, nome, imagem_url, pdf_url, youtube_link FROM produtos ORDER BY
id DESC` (the `conexao` database module is not part of `src/`); it returns
the table's rows sorted by descending id. -/
def selectAllDesc (db : List Product) : List Product :=
  List.insertionSort idDesc db

inductive ListResponse where
  | ok (rows : List ProductOut)
  | serverError
  deriving DecidableEq, Repr

/-- GET /produtos handler (src/app.js:55-74); `selectFails` is the outcome
of the repository query (its failure is caught and becomes the 500 answer). -/
def getProdutos (selectFails : Bool) (db : List Product) : ListResponse :=
  if selectFails then .serverError
  else .ok ((selectAllDesc db).map formatProduct)

/-- Body of a POST /produtos request; `none` is an absent field. -/
structure CreateRequest where
  nome : Option String
  imagem : Option String
  pdfDataUrl : Option String
  youtubeLink : Option String

/-- JavaScript falsiness of an optional string field (`!x`). -/
def isFalsy : Option String → Bool
  | none => true
  | some s => s.isEmpty

/-- Clock readings, random draws and external-call outcomes available to a
create request: one `Date.now()`/`Math.random()` pair per upload, the blob
store's answer to each `put`, and the repository's answer to the insert. -/
structure CreateEnv where
  now1 : Nat
  rnd1 : List Nat
  putImagem : Except Unit String
  now2 : Nat
  rnd2 : List Nat
  putPdf : Except Unit String
  insertResult : Except Unit Int

inductive CreateResponse where
  | missingField             -- 400
  | serverError              -- 500, the single catch of upload/insert errors
  | created (p : ProductOut) -- 201
  deriving DecidableEq, Repr

structure CreateResult where
  response : CreateResponse
  events : List Ev
  deriving DecidableEq, Repr

/-- POST /produtos handler (src/app.js:77-117). -/
def postProdutos (env : CreateEnv) (req : CreateRequest) : CreateResult :=
  if isFalsy req.nome || isFalsy req.imagem || isFalsy req.pdfDataUrl ||
      isFalsy req.youtubeLink then
    ⟨.missingField, []⟩
  else
    let nome := req.nome.getD ""
    let imagem := req.imagem.getD ""
    let pdfDataUrl := req.pdfDataUrl.getD ""
    let youtubeLink := req.youtubeLink.getD ""
    match uploadBase64ToStorage env.now1 env.rnd1 env.putImagem imagem with
    | (.error _, evs1) => ⟨.serverError, evs1⟩
    | (.ok finalImageUrl, evs1) =>
      match uploadBase64ToStorage env.now2 env.rnd2 env.putPdf pdfDataUrl with
      | (.error _, evs2) => ⟨.serverError, evs1 ++ evs2⟩
      | (.ok finalPdfUrl, evs2) =>
        let insertEv := Ev.dbInsert nome finalImageUrl finalPdfUrl youtubeLink
        match env.insertResult with
        | .error _ => ⟨.serverError, evs1 ++ evs2 ++ [insertEv]⟩
        | .ok newId =>
          ⟨.created ⟨newId, nome, finalImageUrl, finalPdfUrl, youtubeLink⟩,
            evs1 ++ evs2 ++ [insertEv]⟩

/-- Outcomes of the external calls a delete request may make. -/
structure DeleteEnv where
  selectOutcome : Except Unit Unit
  deleteOutcome : Except Unit Unit
  blobDelOutcome : String → Except Unit Unit

inductive DeleteResponse where
  | notFound              -- 404
  | serverError           -- 500
  | ok (message : String) -- 200
  deriving DecidableEq, Repr

structure DeleteResult where
  response : DeleteResponse
  events : List Ev
  db : List Product
  deriving DecidableEq, Repr

/-- The blob cleanup loop (src/app.js:142-150): each deletion is attempted
in order, its outcome consulted, and a failure only logged as a warning. -/
def delLoop (outcome : String → Except Unit Unit) : List String → List Ev
  | [] => []
  | url :: rest =>
    match outcome url with
    | .ok _ => Ev.blobDel url :: delLoop outcome rest
    | .error _ => Ev.blobDel url :: delLoop outcome rest

/-- DELETE /produtos/:id handler after id parsing (src/app.js:124-157).
Modelled from the spec where the absent `conexao` module is concerned: the
repository identifies rows by numeric id, so the `NaN` produced by an
unparseable path parameter (`none` here) identifies no row and the select
reports zero rows.  The final `db` field is the repository state after the
request. -/
def deleteWithId (env : DeleteEnv) (db : List Product)
    (idProduto : Option Int) : DeleteResult :=
  match env.selectOutcome with
  | .error _ => ⟨.serverError, [], db⟩
  | .ok _ =>
    match idProduto with
    | none => ⟨.notFound, [], db⟩
    | some n =>
      match db.find? (fun p => p.id == n) with
      | none => ⟨.notFound, [], db⟩
      | some row =>
        match env.deleteOutcome with
        | .error _ => ⟨.serverError, [.dbDelete n], db⟩
        | .ok _ =>
          let urlsToDelete := [row.imagem_url, row.pdf_url].filter
            (fun url => !url.isEmpty && jsStartsWith "http" url)
          ⟨.ok ("Produto " ++ toString n ++ " excluído com sucesso."),
            .dbDelete n :: delLoop env.blobDelOutcome urlsToDelete,
            db.filter (fun p => !(p.id == n))⟩

/-- DELETE /produtos/:id handler (src/app.js:120-158): the path parameter is
parsed with `parseInt` and the request proceeds on the result. -/
def deleteProdutos (env : DeleteEnv) (db : List Product) (idParam : String) :
    DeleteResult :=
  deleteWithId env db (jsParseInt idParam)


/-! ### General lemmas about the string and base64 models -/

theorem firstSplit_post_length {p : List Char} (hp : p ≠ []) :
    ∀ {s pre post : List Char}, firstSplit p s = some (pre, post) →
      post.length < s.length := by
  intro s
  induction s with
  | nil => intro pre post h; simp [firstSplit] at h
  | cons c rest ih =>
    intro pre post h
    rw [firstSplit] at h
    by_cases hpre : p.isPrefixOf (c :: rest)
    · rw [if_pos hpre] at h
      have hlen : 1 ≤ p.length := List.length_pos.mpr hp
      have hpost : (c :: rest).drop p.length = post :=
        congrArg Prod.snd (Option.some.inj h)
      rw [← hpost, List.length_drop]
      simp only [List.length_cons]
      omega
    · rw [if_neg hpre] at h
      cases hfs' : firstSplit p rest with
      | none => rw [hfs'] at h; simp at h
      | some pr =>
        rw [hfs'] at h
        simp only [Option.map_some'] at h
        have hpost : pr.2 = post := congrArg Prod.snd (Option.some.inj h)
        have hrec := ih (show firstSplit p rest = some (pr.1, pr.2) from by rw [hfs'])
        rw [hpost] at hrec
        simp only [List.length_cons]
        omega

theorem splitOnFuel_congr {p : List Char} (hp : p ≠ []) :
    ∀ (fuel₁ : Nat) {fuel₂ : Nat} {s : List Char},
      s.length < fuel₁ → s.length < fuel₂ →
      splitOnFuel p fuel₁ s = splitOnFuel p fuel₂ s := by
  intro fuel₁
  induction fuel₁ with
  | zero => intro fuel₂ s h1 _; omega
  | succ f ih =>
    intro fuel₂ s h1 h2
    cases fuel₂ with
    | zero => omega
    | succ f₂ =>
      simp only [splitOnFuel]
      cases hfs : firstSplit p s with
      | none => rfl
      | some pr =>
        obtain ⟨pre, post⟩ := pr
        have hlt := firstSplit_post_length hp hfs
        show pre :: splitOnFuel p f post = pre :: splitOnFuel p f₂ post
        exact congrArg (pre :: ·) (ih (by omega) (by omega))

/-- Unfolding equation for `splitOnL`. -/
theorem splitOnL_eq {p : List Char} (hp : p ≠ []) (s : List Char) :
    splitOnL p s =
      match firstSplit p s with
      | none => [s]
      | some (pre, post) => pre :: splitOnL p post := by
  cases hfs : firstSplit p s with
  | none =>
    show splitOnFuel p (s.length + 1) s = [s]
    rw [splitOnFuel, hfs]
  | some pr =>
    obtain ⟨pre, post⟩ := pr
    have hlt := firstSplit_post_length hp hfs
    show splitOnFuel p (s.length + 1) s = pre :: splitOnL p post
    rw [splitOnFuel, hfs]
    show pre :: splitOnFuel p s.length post = pre :: splitOnL p post
    exact congrArg (pre :: ·) (splitOnFuel_congr hp _ (by omega) (by omega))

theorem firstSplit_eq_none_iff (p : List Char) :
    ∀ s : List Char, firstSplit p s = none ↔ occCount p s = 0 := by
  intro s
  induction s with
  | nil => simp [firstSplit, occCount]
  | cons c rest ih =>
    by_cases hpre : p.isPrefixOf (c :: rest)
    · simp [firstSplit, occCount, hpre]
    · simp [firstSplit, occCount, hpre, ih]

/-- A borderless pattern that matches at the start of `p ++ t` cannot match
again within the first `p.length` positions. -/
theorem no_border_match {p : List Char} (hb : Borderless p)
    (t : List Char) {j : Nat} (hj1 : 1 ≤ j) (hj2 : j < p.length) :
    ¬ p.isPrefixOf (p.drop j ++ t) := by
  intro hpre
  rw [ List.isPrefixOf_iff_prefix] at hpre
  obtain ⟨r, hr⟩ := hpre
  have h1 : (p ++ r).take (p.length - j) = p.take (p.length - j) :=
    List.take_append_of_le_length (by omega)
  have h2 : (p.drop j ++ t).take (p.length - j) = p.drop j :=
    List.take_left' (by simp [List.length_drop])
  rw [← hr] at h2
  exact ((hb j hj2).resolve_left (by omega)) (h1.symm.trans h2)

/-- Dropping one character of a list that does not start with `p` does not
change the occurrence count. -/
theorem occCount_drop_one {p : List Char} {l : List Char}
    (h : ¬ p.isPrefixOf l) : occCount p l = occCount p (l.drop 1) := by
  cases l with
  | nil => rfl
  | cons c rest => simp [occCount, h]

/-- For a borderless pattern, the occurrences in `p ++ t` are exactly the one
at position `0` and the occurrences of `t`. -/
theorem occCount_append_self {p : List Char} (hb : Borderless p)
    (hp : p ≠ []) (t : List Char) :
    occCount p (p ++ t) = 1 + occCount p t := by
  have aux : ∀ k, k ≤ p.length - 1 →
      occCount p ((p ++ t).drop (p.length - k)) = occCount p t := by
    intro k
    induction k with
    | zero =>
      intro _
      simp [List.drop_left]
    | succ k ih =>
      intro hk
      have hplen : 1 ≤ p.length := by
        cases p with
        | nil => exact absurd rfl hp
        | cons a l => simp
      have hj1 : 1 ≤ p.length - (k + 1) := by omega
      have hj2 : p.length - (k + 1) < p.length := by omega
      have hdrop : (p ++ t).drop (p.length - (k + 1)) =
          p.drop (p.length - (k + 1)) ++ t :=
        List.drop_append_of_le_length (by omega)
      have hnom : ¬ p.isPrefixOf ((p ++ t).drop (p.length - (k + 1))) := by
        rw [hdrop]; exact no_border_match hb t hj1 hj2
      have step := occCount_drop_one hnom
      rw [step]
      have : ((p ++ t).drop (p.length - (k + 1))).drop 1 =
          (p ++ t).drop (p.length - k) := by
        rw [List.drop_drop]
        congr 1
        omega
      rw [this]
      exact ih (by omega)
  cases hp' : p with
  | nil => exact absurd hp' hp
  | cons c p' =>
    rw [← hp']
    have hpre : p.isPrefixOf (p ++ t) := by
      rw [ List.isPrefixOf_iff_prefix]; exact List.prefix_append p t
    have hcons : p ++ t = c :: (p' ++ t) := by rw [hp']; rfl
    rw [hcons]
    have hpre' : p.isPrefixOf (c :: (p' ++ t)) := by rw [← hcons]; exact hpre
    simp only [occCount, hpre', if_pos]
    have h1 : p' ++ t = (p ++ t).drop 1 := by rw [hp']; rfl
    have h2 := aux (p.length - 1) (le_refl _)
    have h3 : p.length - (p.length - 1) = 1 := by
      rw [hp']; simp
    rw [h3] at h2
    rw [h1, h2]

/-- A borderless pattern: the occurrences of `p` in `s` are the one found by
`firstSplit` plus the occurrences of the remainder. -/
theorem occCount_firstSplit {p : List Char} (hb : Borderless p) (hp : p ≠ []) :
    ∀ {s pre post : List Char}, firstSplit p s = some (pre, post) →
      occCount p s = 1 + occCount p post := by
  intro s
  induction s with
  | nil => intro pre post h; simp [firstSplit] at h
  | cons c rest ih =>
    intro pre post h
    rw [firstSplit] at h
    by_cases hpre : p.isPrefixOf (c :: rest)
    · rw [if_pos hpre] at h
      have hpfx : p <+: c :: rest := List.isPrefixOf_iff_prefix.mp hpre
      obtain ⟨r, hr⟩ := hpfx
      have hpost : (c :: rest).drop p.length = post :=
        congrArg Prod.snd (Option.some.inj h)
      have hr' : (c :: rest).drop p.length = r := by
        rw [← hr, List.drop_left]
      rw [← hr, occCount_append_self hb hp, ← hpost, hr']
    · rw [if_neg hpre] at h
      cases hfs' : firstSplit p rest with
      | none => rw [hfs'] at h; simp at h
      | some pr =>
        rw [hfs'] at h
        simp only [Option.map_some'] at h
        have hpost : pr.2 = post := congrArg Prod.snd (Option.some.inj h)
        have hrec := ih (show firstSplit p rest = some (pr.1, pr.2) from by rw [hfs'])
        have hocc : occCount p (c :: rest) = occCount p rest := by
          rw [occCount, if_neg hpre]
          omega
        rw [hocc, hrec, hpost]

/-- `split` always returns at least one segment. -/
theorem splitOnL_ne_nil {p : List Char} (hp : p ≠ []) (s : List Char) :
    splitOnL p s ≠ [] := by
  cases hfs : firstSplit p s with
  | none => rw [splitOnL_eq hp, hfs]; simp
  | some pr =>
    obtain ⟨pre, post⟩ := pr
    rw [splitOnL_eq hp, hfs]
    simp

/-- For a borderless nonempty pattern, `split` yields exactly two segments
iff the pattern occurs exactly once. -/
theorem splitOnL_length_two_iff {p : List Char} (hb : Borderless p)
    (hp : p ≠ []) (s : List Char) :
    (splitOnL p s).length = 2 ↔ occCount p s = 1 := by
  cases hfs : firstSplit p s with
  | none =>
    have h0 := (firstSplit_eq_none_iff p s).mp hfs
    rw [splitOnL_eq hp, hfs]
    simp [h0]
  | some pr =>
    obtain ⟨pre, post⟩ := pr
    have hcnt := occCount_firstSplit hb hp hfs
    rw [splitOnL_eq hp, hfs]
    show (pre :: splitOnL p post).length = 2 ↔ occCount p s = 1
    cases hfs2 : firstSplit p post with
    | none =>
      have h0 := (firstSplit_eq_none_iff p post).mp hfs2
      rw [splitOnL_eq hp post, hfs2]
      simp [hcnt, h0]
    | some pr2 =>
      obtain ⟨pre2, post2⟩ := pr2
      have hcnt2 := occCount_firstSplit hb hp hfs2
      rw [splitOnL_eq hp post, hfs2]
      show (pre :: pre2 :: splitOnL p post2).length = 2 ↔ occCount p s = 1
      have hne : splitOnL p post2 ≠ [] := splitOnL_ne_nil hp post2
      constructor
      · intro hlen
        exfalso
        simp only [List.length_cons] at hlen
        have hz : (splitOnL p post2).length = 0 := by omega
        exact hne (List.length_eq_zero.mp hz)
      · intro hocc
        exfalso
        omega

theorem sextetOfChar_sextetChar (n : Nat) (h : n < 64) :
    sextetOfChar (sextetChar n) = some n := by
  have hall : ∀ m, m < 64 → sextetOfChar (sextetChar m) = some m := by decide
  exact hall n h

theorem sextetOfChar_pad : sextetOfChar '=' = none := by decide

/-- Decoding is a left inverse of encoding on genuine byte lists. -/
theorem bufferFromBase64_bytesToBase64 :
    ∀ bs : List Nat, (∀ b ∈ bs, b < 256) →
      bufferFromBase64 (bytesToBase64 bs) = bs := by
  intro bs
  induction bs using bytesToBase64.induct with
  | case1 a b c rest ih =>
    intro hbs
    have ha : a < 256 := hbs a (by simp)
    have hb : b < 256 := hbs b (by simp)
    have hc : c < 256 := hbs c (by simp)
    have h1 := sextetOfChar_sextetChar (a / 4) (by omega)
    have h2 := sextetOfChar_sextetChar (a % 4 * 16 + b / 16) (by omega)
    have h3 := sextetOfChar_sextetChar (b % 16 * 4 + c / 64) (by omega)
    have h4 := sextetOfChar_sextetChar (c % 64) (by omega)
    have ih' := ih (fun x hx => hbs x (by simp [hx]))
    simp only [bytesToBase64, bufferFromBase64, List.filterMap_cons, h1, h2,
      h3, h4] at ih' ⊢
    rw [sextetsToBytes]
    simp only [List.cons.injEq]
    exact ⟨by omega, by omega, by omega, ih'⟩
  | case2 a b =>
    intro hbs
    have ha : a < 256 := hbs a (by simp)
    have hb : b < 256 := hbs b (by simp)
    have h1 := sextetOfChar_sextetChar (a / 4) (by omega)
    have h2 := sextetOfChar_sextetChar (a % 4 * 16 + b / 16) (by omega)
    have h3 := sextetOfChar_sextetChar (b % 16 * 4) (by omega)
    simp only [bytesToBase64, bufferFromBase64, List.filterMap_cons,
      List.filterMap_nil, h1, h2, h3, sextetOfChar_pad]
    rw [show sextetsToBytes [a / 4, a % 4 * 16 + b / 16, b % 16 * 4] =
      [(a / 4) * 4 + (a % 4 * 16 + b / 16) / 16,
        (a % 4 * 16 + b / 16) % 16 * 16 + b % 16 * 4 / 4] from rfl]
    simp only [List.cons.injEq]
    exact ⟨by omega, by omega, trivial⟩
  | case3 a =>
    intro hbs
    have ha : a < 256 := hbs a (by simp)
    have h1 := sextetOfChar_sextetChar (a / 4) (by omega)
    have h2 := sextetOfChar_sextetChar (a % 4 * 16) (by omega)
    simp only [bytesToBase64, bufferFromBase64, List.filterMap_cons,
      List.filterMap_nil, h1, h2, sextetOfChar_pad]
    rw [show sextetsToBytes [a / 4, a % 4 * 16] = [(a / 4) * 4 + (a % 4 * 16) / 16]
      from rfl]
    simp only [List.cons.injEq]
    exact ⟨by omega, trivial⟩
  | case4 =>
    intro _
    rfl


/-- The cleanup loop attempts every deletion, whatever the outcomes. -/
theorem delLoop_eq_map (outcome : String → Except Unit Unit) :
    ∀ urls : List String, delLoop outcome urls = urls.map Ev.blobDel := by
  intro urls
  induction urls with
  | nil => rfl
  | cons u rest ih =>
    unfold delLoop
    cases outcome u <;> simp [ih]

/-- The upload helper only ever records `put` calls. -/
theorem uploadBase64ToStorage_events (now : Nat) (rnd : List Nat)
    (putOutcome : Except Unit String) (dataUrl : String) :
    (uploadBase64ToStorage now rnd putOutcome dataUrl).2 = [] ∨
      ∃ f b m, (uploadBase64ToStorage now rnd putOutcome dataUrl).2 =
        [Ev.put f b m] := by
  unfold uploadBase64ToStorage
  cases parseDataUrl dataUrl with
  | none => exact Or.inl rfl
  | some pr =>
    obtain ⟨mime, body⟩ := pr
    exact Or.inr ⟨_, _, _, rfl⟩

/-- Unfolding of the create handler once the presence guard has passed. -/
theorem postProdutos_not_missing (env : CreateEnv) (req : CreateRequest)
    (hcond : (isFalsy req.nome || isFalsy req.imagem || isFalsy req.pdfDataUrl ||
      isFalsy req.youtubeLink) = false) :
    postProdutos env req =
      match uploadBase64ToStorage env.now1 env.rnd1 env.putImagem
          (req.imagem.getD "") with
      | (.error _, evs1) => ⟨.serverError, evs1⟩
      | (.ok finalImageUrl, evs1) =>
        match uploadBase64ToStorage env.now2 env.rnd2 env.putPdf
            (req.pdfDataUrl.getD "") with
        | (.error _, evs2) => ⟨.serverError, evs1 ++ evs2⟩
        | (.ok finalPdfUrl, evs2) =>
          match env.insertResult with
          | .error _ => ⟨.serverError, evs1 ++ evs2 ++
              [Ev.dbInsert (req.nome.getD "") finalImageUrl finalPdfUrl
                (req.youtubeLink.getD "")]⟩
          | .ok newId => ⟨.created ⟨newId, req.nome.getD "", finalImageUrl,
              finalPdfUrl, req.youtubeLink.getD ""⟩, evs1 ++ evs2 ++
              [Ev.dbInsert (req.nome.getD "") finalImageUrl finalPdfUrl
                (req.youtubeLink.getD "")]⟩ := by
  unfold postProdutos
  rw [hcond]
  rfl

/-- `dropWhile` removes a fully-satisfying leading run. -/
theorem dropWhile_append_of_all {p : Char → Bool} :
    ∀ (ws rem : List Char), (∀ c ∈ ws, p c = true) →
      (ws ++ rem).dropWhile p = rem.dropWhile p := by
  intro ws rem hws
  induction ws with
  | nil => rfl
  | cons c cs ih =>
    rw [List.cons_append, List.dropWhile_cons, hws c (by simp)]
    exact ih (fun d hd => hws d (by simp [hd]))

/-- `parseDigits` consumes a leading run of decimal digits, carrying a
started accumulator along. -/
theorem parseDigits_digits_append :
    ∀ (ds rest : List Char) (a : Nat),
      (∀ c ∈ ds, 48 ≤ c.toNat ∧ c.toNat ≤ 57) →
      parseDigits 10 digitVal10 (ds ++ rest) (some a) =
        parseDigits 10 digitVal10 rest
          (some (ds.foldl (fun a c => a * 10 + (c.toNat - 48)) a)) := by
  intro ds
  induction ds with
  | nil =>
    intro rest a _
    rfl
  | cons d ds' ih =>
    intro rest a hdig
    have hd := hdig d (by simp)
    rw [List.cons_append, parseDigits]
    rw [show digitVal10 d = some (d.toNat - 48) from by simp [digitVal10, hd]]
    show parseDigits 10 digitVal10 (ds' ++ rest) (some (a * 10 + (d.toNat - 48))) = _
    rw [ih rest _ (fun c hc => hdig c (by simp [hc]))]
    rfl

/-- A nonempty leading digit run is read in full, whatever follows first is
not a digit. -/
theorem parseDigits_run (d : Char) (ds rest : List Char)
    (hdig : ∀ c ∈ d :: ds, 48 ≤ c.toNat ∧ c.toNat ≤ 57)
    (hrest : ∀ c ∈ rest.take 1, digitVal10 c = none) :
    parseDigits 10 digitVal10 ((d :: ds) ++ rest) none =
      some (decimalVal (d :: ds)) := by
  have hd := hdig d (by simp)
  rw [List.cons_append, parseDigits]
  rw [show digitVal10 d = some (d.toNat - 48) from by simp [digitVal10, hd]]
  show parseDigits 10 digitVal10 (ds ++ rest) (some (0 * 10 + (d.toNat - 48))) = _
  rw [parseDigits_digits_append ds rest _ (fun c hc => hdig c (by simp [hc]))]
  have hstop : ∀ v : Nat, parseDigits 10 digitVal10 rest (some v) = some v := by
    intro v
    cases rest with
    | nil => rfl
    | cons r rs =>
      have hr := hrest r (by simp)
      rw [parseDigits, hr]
  rw [hstop]
  rfl


/-! ### Claims -/

/-- **C5** (confirmed): the encoded-payload decoder fails with
`InvalidFormat` exactly when the input string does not begin with the fixed
`data:` scheme prefix or does not contain exactly one `';base64,'` delimiter
separating the declared-type header from the base64 body; every input
satisfying both shape conditions passes the format check. -/
theorem c5_invalid_format_iff (dataUrl : String) :
    parseDataUrl dataUrl = none ↔
      (jsStartsWith "data:" dataUrl = false ∨
        occCount base64Delim dataUrl.data ≠ 1) := by
  have hb : Borderless base64Delim := by decide
  have hp : base64Delim ≠ [] := by decide
  cases hstart : jsStartsWith "data:" dataUrl with
  | false =>
    have hnone : parseDataUrl dataUrl = none := by
      unfold parseDataUrl
      rw [hstart]
      simp
    simp [hnone]
  | true =>
    have hne : dataUrl.isEmpty = false := by
      cases hemp : dataUrl.isEmpty
      · rfl
      · have h2 : dataUrl = "" := (String.isEmpty_iff dataUrl).mp hemp
        rw [h2] at hstart
        exact absurd hstart (by decide)
    have hred : parseDataUrl dataUrl =
        (if (splitOnL base64Delim dataUrl.data).length = 2 then
            some (String.mk ((splitOnL [':']
                ((splitOnL base64Delim dataUrl.data).headD [])).getD 1 []),
              (splitOnL base64Delim dataUrl.data).getD 1 [])
          else none) := by
      unfold parseDataUrl
      rw [hstart, hne]
      rfl
    rw [hred]
    by_cases h2 : (splitOnL base64Delim dataUrl.data).length = 2
    · have hocc := (splitOnL_length_two_iff hb hp dataUrl.data).mp h2
      rw [if_pos h2]
      simp [hocc]
    · have hocc : occCount base64Delim dataUrl.data ≠ 1 :=
        fun hcontra => h2 ((splitOnL_length_two_iff hb hp dataUrl.data).mpr hcontra)
      rw [if_neg h2]
      simp [hocc]

/-- **C6 is false as stated** (counterexample): `"data:image/png;base64,A"`
passes the decoder's format check, yet re-encoding its decoded byte buffer
yields the empty string, not the original body `"A"` — the format check does
not validate the base64 body, and a body whose bit count does not fill whole
bytes cannot round-trip. -/
theorem c6_counterexample :
    parseDataUrl "data:image/png;base64,A" = some ("image/png", ['A']) ∧
      bufferFromBase64 ['A'] = [] ∧
      bytesToBase64 (bufferFromBase64 ['A']) ≠ ['A'] := by
  refine ⟨by decide, rfl, by decide⟩

/-- **C6 (amended)**: for every payload that passes the decoder's format
check and whose base64 body is the canonical base64 encoding of some byte
buffer, re-encoding the extracted raw byte buffer reproduces the original
base64 body segment exactly. -/
theorem c6_roundtrip (dataUrl mime : String) (body : List Char)
    (bs : List Nat)
    (hparse : parseDataUrl dataUrl = some (mime, body))
    (hbody : body = bytesToBase64 bs)
    (hbs : ∀ b ∈ bs, b < 256) :
    bytesToBase64 (bufferFromBase64 body) = body := by
  subst hbody
  rw [bufferFromBase64_bytesToBase64 bs hbs]

theorem c6_roundtrip_witness :
    bytesToBase64 (bufferFromBase64 "QUJD".data) = "QUJD".data :=
  c6_roundtrip "data:application/pdf;base64,QUJD" "application/pdf"
    "QUJD".data [65, 66, 67] (by decide) (by decide) (by decide)

/-- **C7** (confirmed): the list operation answers with exactly the
repository's rows at call time — the row count is preserved, the rows are in
descending id order, and renaming the external field names back to the
storage columns recovers a permutation of the repository's rows. -/
theorem c7_list_rows (db : List Product) :
    ∃ rows : List ProductOut,
      getProdutos false db = .ok rows ∧
      rows.length = db.length ∧
      rows.Pairwise (fun a b => b.id ≤ a.id) ∧
      (rows.map unformatProduct).Perm db := by
  refine ⟨(selectAllDesc db).map formatProduct, rfl, ?_, ?_, ?_⟩
  · rw [List.length_map]
    exact (List.perm_insertionSort idDesc db).length_eq
  · rw [List.pairwise_map]
    exact List.sorted_insertionSort idDesc db
  · rw [List.map_map]
    have hid : unformatProduct ∘ formatProduct = id := by
      funext p
      cases p
      rfl
    rw [hid, List.map_id]
    exact List.perm_insertionSort idDesc db

/-- **C8 is false as stated** (counterexample): `extensaoMapeada` is a plain
object literal, so the lookup `extensaoMapeada['toString']` finds the
inherited, truthy `Object.prototype.toString` and `|| 'bin'` keeps it: the
MIME type `"toString"` is outside the fixed table yet does not map to the
fallback extension `bin` — the filename gets the stringified function
instead. -/
theorem c8_counterexample :
    extensaoMapeada "toString" = none ∧
    extensao "toString" = .protoFn "toString" ∧
    extensao "toString" ≠ .str "bin" ∧
    JsProp.interp (extensao "toString") =
      "function toString() \x7b [native code] \x7d" := by
  refine ⟨rfl, by decide, by decide, by decide⟩

/-- **C8 (amended)**: the file extension is a pure function of the declared
MIME type: the four table entries map as given (`image/png → png`,
`image/jpeg → jpg`, `application/pdf → pdf`, `image/svg+xml → svg`), and
every MIME type outside the table that does not name an inherited
`Object.prototype` member (the empty and absent type included) maps to the
fallback `bin`; for the inherited member names (`toString`, `constructor`,
`__proto__`, ...) the lookup instead yields the truthy inherited value, so
the `bin` fallback is not taken. -/
theorem c8_extension_table :
    extensao "image/png" = .str "png" ∧ extensao "image/jpeg" = .str "jpg" ∧
    extensao "application/pdf" = .str "pdf" ∧
    extensao "image/svg+xml" = .str "svg" ∧
    (∀ mimeType : String, extensaoMapeada mimeType = none →
      mimeType ≠ "__proto__" → mimeType ∉ objectProtoProps →
      extensao mimeType = .str "bin") ∧
    (∀ mimeType : String,
      mimeType = "__proto__" ∨ mimeType ∈ objectProtoProps →
      extensao mimeType ≠ .str "bin" ∧ (extensao mimeType).truthy = true) := by
  refine ⟨rfl, rfl, rfl, rfl, ?_, ?_⟩
  · intro m h1 h2 h3
    simp [extensao, extensaoMapeadaGet, h1, h2, h3, JsProp.truthy]
  · intro m hm
    rcases hm with rfl | hm
    · exact ⟨by decide, by decide⟩
    · simp only [objectProtoProps, List.mem_cons, List.not_mem_nil,
        or_false] at hm
      rcases hm with rfl | rfl | rfl | rfl | rfl | rfl | rfl | rfl | rfl |
        rfl | rfl <;> exact ⟨by decide, by decide⟩

theorem c8_extension_table_witness :
    extensao "text/plain" = .str "bin" ∧ extensao "" = .str "bin" ∧
    extensao "hasOwnProperty" ≠ .str "bin" :=
  ⟨c8_extension_table.2.2.2.2.1 "text/plain" rfl (by decide) (by decide),
    c8_extension_table.2.2.2.2.1 "" rfl (by decide) (by decide),
    (c8_extension_table.2.2.2.2.2 "hasOwnProperty" (Or.inr (by decide))).1⟩

/-- **C9 is false as stated** (counterexample): at the random draw 0.5 —
whose base-36 representation `"0.i"` has the single fractional digit 18 —
the token is `"i"`, of length 1, not 6 or 7; the filename still has the
`<time>-<token>.<ext>` shape. -/
theorem c9_counterexample :
    nomeArquivo 1700000000000 [18] "png" = "1700000000000-i.png" ∧
      (randomToken [18]).length = 1 ∧
      ¬ ((randomToken [18]).length = 6 ∨ (randomToken [18]).length = 7) := by
  refine ⟨by decide, rfl, by decide⟩

/-- **C9 (amended)**: the synthesized object key always has the shape
`<current-time-in-ms>-<token>.<extension>`, where the token consists of the
first at most seven fractional base-36 digits of the random draw: its length
is `min 7` of the digit count — always at most 7 and exactly 7 for draws
with at least seven digits, but shorter for draws with fewer (so not always
6 or 7). -/
theorem c9_filename_shape (now : Nat) (rnd : List Nat) (ext : String) :
    (nomeArquivo now rnd ext).data =
      (toString now).data ++ ['-'] ++ randomToken rnd ++ ['.'] ++ ext.data ∧
    (randomToken rnd).length = min 7 rnd.length := by
  constructor
  · simp [nomeArquivo]
  · simp [randomToken]

/-- **C3** (confirmed): a create request in which any of the four fields is
missing or empty answers `MissingField` and makes no external call at all —
no upload and no database write. -/
theorem c3_missing_field (env : CreateEnv) (req : CreateRequest)
    (h : isFalsy req.nome = true ∨ isFalsy req.imagem = true ∨
      isFalsy req.pdfDataUrl = true ∨ isFalsy req.youtubeLink = true) :
    postProdutos env req = ⟨.missingField, []⟩ := by
  have hcond : (isFalsy req.nome || isFalsy req.imagem ||
      isFalsy req.pdfDataUrl || isFalsy req.youtubeLink) = true := by
    rcases h with h | h | h | h <;> simp [h]
  unfold postProdutos
  rw [hcond]
  rfl

theorem c3_missing_field_witness :
    postProdutos ⟨0, [], .ok "u1", 0, [], .ok "u2", .ok 1⟩
      ⟨some "Widget", none, some "data:application/pdf;base64,JVBERi0=",
        some "https://youtu.be/x"⟩ = ⟨.missingField, []⟩ :=
  c3_missing_field _ _ (Or.inr (Or.inl rfl))


/-- Characters with equal code points are equal. -/
theorem char_toNat_inj {a b : Char} (h : a.toNat = b.toNat) : a = b :=
  Char.ext (UInt32.toNat.inj h)

/-- Without a `0x`/`0X` prefix, `jsParseUnsigned` reads decimal digits. -/
theorem jsParseUnsigned_no_hex {cs : List Char}
    (hno : ∀ c0 c1 rest', cs = c0 :: c1 :: rest' →
      ¬ (c0.toNat = 48 ∧ (c1.toNat = 120 ∨ c1.toNat = 88))) :
    jsParseUnsigned cs = parseDigits 10 digitVal10 cs none := by
  rcases cs with _ | ⟨c0, _ | ⟨c1, r⟩⟩
  · rfl
  · rfl
  · show (if c0.toNat = 48 ∧ (c1.toNat = 120 ∨ c1.toNat = 88) then
        parseDigits 16 digitVal16 r none
      else parseDigits 10 digitVal10 (c0 :: c1 :: r) none) =
      parseDigits 10 digitVal10 (c0 :: c1 :: r) none
    rw [if_neg (hno c0 c1 r rfl)]

/-- **C1** (confirmed): if decoding or uploading either payload fails, the
create operation aborts with the 500 upload-error result, the database
insert is never executed, and the first failure short-circuits the remaining
steps — on an image failure the recorded calls are exactly those of the
failed image upload, so the document upload is never attempted. -/
theorem c1_upload_failure_aborts (env : CreateEnv) (req : CreateRequest)
    (hnome : isFalsy req.nome = false) (himg : isFalsy req.imagem = false)
    (hpdf : isFalsy req.pdfDataUrl = false)
    (hyt : isFalsy req.youtubeLink = false)
    (hfail :
      (uploadBase64ToStorage env.now1 env.rnd1 env.putImagem
        (req.imagem.getD "")).1 = .error () ∨
      (uploadBase64ToStorage env.now2 env.rnd2 env.putPdf
        (req.pdfDataUrl.getD "")).1 = .error ()) :
    (postProdutos env req).response = .serverError ∧
    (∀ a b c d, Ev.dbInsert a b c d ∉ (postProdutos env req).events) ∧
    ((uploadBase64ToStorage env.now1 env.rnd1 env.putImagem
        (req.imagem.getD "")).1 = .error () →
      (postProdutos env req).events =
        (uploadBase64ToStorage env.now1 env.rnd1 env.putImagem
          (req.imagem.getD "")).2) := by
  have hcond : (isFalsy req.nome || isFalsy req.imagem ||
      isFalsy req.pdfDataUrl || isFalsy req.youtubeLink) = false := by
    simp [hnome, himg, hpdf, hyt]
  have hev1 := uploadBase64ToStorage_events env.now1 env.rnd1 env.putImagem
    (req.imagem.getD "")
  have hev2 := uploadBase64ToStorage_events env.now2 env.rnd2 env.putPdf
    (req.pdfDataUrl.getD "")
  rw [postProdutos_not_missing env req hcond]
  rcases hu1 : uploadBase64ToStorage env.now1 env.rnd1 env.putImagem
    (req.imagem.getD "") with ⟨r1, evs1⟩
  rw [hu1] at hev1 hfail
  have hev1' : evs1 = [] ∨ ∃ f b m, evs1 = [Ev.put f b m] := hev1
  cases r1 with
  | error e1 =>
    cases e1
    refine ⟨rfl, ?_, fun _ => rfl⟩
    intro a b c d
    rcases hev1' with h | ⟨f, bb, m, h⟩ <;> simp [h]
  | ok url1 =>
    have hfail2 : (uploadBase64ToStorage env.now2 env.rnd2 env.putPdf
        (req.pdfDataUrl.getD "")).1 = .error () := by
      rcases hfail with h | h
      · exact absurd h (by simp)
      · exact h
    rcases hu2 : uploadBase64ToStorage env.now2 env.rnd2 env.putPdf
      (req.pdfDataUrl.getD "") with ⟨r2, evs2⟩
    rw [hu2] at hev2 hfail2
    have hev2' : evs2 = [] ∨ ∃ f b m, evs2 = [Ev.put f b m] := hev2
    cases r2 with
    | error e2 =>
      cases e2
      refine ⟨rfl, ?_, ?_⟩
      · intro a b c d
        rcases hev1' with h | ⟨f, bb, m, h⟩ <;>
          rcases hev2' with h2 | ⟨f2, bb2, m2, h2⟩ <;> simp [h, h2]
      · intro hcontra
        exact absurd hcontra (by simp)
    | ok url2 =>
      exact absurd hfail2 (by simp)

theorem c1_upload_failure_aborts_witness :
    (postProdutos ⟨0, [], .ok "u1", 0, [], .ok "u2", .ok 1⟩
      ⟨some "Widget", some "notdata",
        some "data:application/pdf;base64,JVBERi0=",
        some "https://youtu.be/x"⟩).response = .serverError ∧
    (postProdutos ⟨0, [], .ok "u1", 0, [], .ok "u2", .ok 1⟩
      ⟨some "Widget", some "notdata",
        some "data:application/pdf;base64,JVBERi0=",
        some "https://youtu.be/x"⟩).events = [] := by
  have h := c1_upload_failure_aborts ⟨0, [], .ok "u1", 0, [], .ok "u2", .ok 1⟩
    ⟨some "Widget", some "notdata",
      some "data:application/pdf;base64,JVBERi0=", some "https://youtu.be/x"⟩
    rfl rfl rfl rfl (Or.inl rfl)
  exact ⟨h.1, h.2.2 rfl⟩

/-- **C2** (confirmed): once the repository row of an existing id has been
deleted, the operation succeeds regardless of blob cleanup — the response is
the 200 success message naming the id, the row is removed from the
repository, and both qualifying blob deletions are attempted whatever their
outcomes (each failure is caught independently and changes neither the other
attempt nor the response). -/
theorem c2_delete_success (env : DeleteEnv) (db : List Product)
    (idParam : String) (n : Int) (row : Product)
    (hsel : env.selectOutcome = .ok ()) (hdel : env.deleteOutcome = .ok ())
    (hid : jsParseInt idParam = some n)
    (hrow : db.find? (fun p => p.id == n) = some row) :
    deleteProdutos env db idParam =
      ⟨.ok ("Produto " ++ toString n ++ " excluído com sucesso."),
        .dbDelete n :: ([row.imagem_url, row.pdf_url].filter
          (fun url => !url.isEmpty && jsStartsWith "http" url)).map Ev.blobDel,
        db.filter (fun p => !(p.id == n))⟩ := by
  simp only [deleteProdutos, deleteWithId, hsel, hid, hrow, hdel,
    delLoop_eq_map]

theorem c2_delete_success_witness :
    deleteProdutos ⟨.ok (), .ok (), fun _ => .error ()⟩
      [⟨5, "Widget", "http://img", "http://pdf", "https://youtu.be/x"⟩] "5" =
      ⟨.ok "Produto 5 excluído com sucesso.",
        [.dbDelete 5, .blobDel "http://img", .blobDel "http://pdf"], []⟩ := by
  have h := c2_delete_success ⟨.ok (), .ok (), fun _ => .error ()⟩
    [⟨5, "Widget", "http://img", "http://pdf", "https://youtu.be/x"⟩] "5" 5
    ⟨5, "Widget", "http://img", "http://pdf", "https://youtu.be/x"⟩
    rfl rfl (by decide) (by decide)
  exact h.trans (by decide)

/-- **C4** (confirmed): a delete request whose id does not parse as a number
or matches no repository row answers 404 `NotFound`, issues neither a
database delete nor any blob-store delete call, and leaves the repository
untouched. -/
theorem c4_not_found (env : DeleteEnv) (db : List Product) (idParam : String)
    (hsel : env.selectOutcome = .ok ())
    (hmiss : ∀ n : Int, jsParseInt idParam = some n →
      db.find? (fun p => p.id == n) = none) :
    deleteProdutos env db idParam = ⟨.notFound, [], db⟩ := by
  cases hid : jsParseInt idParam with
  | none => simp only [deleteProdutos, deleteWithId, hsel, hid]
  | some n => simp only [deleteProdutos, deleteWithId, hsel, hid, hmiss n hid]

theorem c4_not_found_witness :
    deleteProdutos ⟨.ok (), .ok (), fun _ => .ok ()⟩
      [⟨1, "Widget", "http://img", "http://pdf", "https://youtu.be/x"⟩] "abc" =
      ⟨.notFound, [],
        [⟨1, "Widget", "http://img", "http://pdf", "https://youtu.be/x"⟩]⟩ :=
  c4_not_found _ _ _ rfl (fun n h => by
    rw [show jsParseInt "abc" = (none : Option Int) from by decide] at h
    exact Option.noConfusion h)

/-- **C10 is false as stated** (counterexample): the claim says only the
leading decimal prefix of the id is significant, so `"0xA"` — decimal prefix
`"0"`, trailing `"xA"` non-numeric — would have to operate on product 0.
The code instead parses the `0x` prefix as hexadecimal: `parseInt` answers
16-based 10, and on a repository containing product 0 the delete answers
`NotFound` and deletes nothing. -/
theorem c10_counterexample :
    digitVal10 '0' = some 0 ∧ digitVal10 'x' = none ∧
    jsParseInt "0xA" = some 10 ∧
    deleteProdutos ⟨.ok (), .ok (), fun _ => .ok ()⟩
      [⟨0, "Widget", "http://img", "http://pdf", "https://youtu.be/x"⟩]
      "0xA" =
      ⟨.notFound, [],
        [⟨0, "Widget", "http://img", "http://pdf", "https://youtu.be/x"⟩]⟩ := by
  refine ⟨rfl, rfl, by decide, by decide⟩

/-- **C10 (amended)**: for every parameter string of the shape
`<whitespace><optional sign><decimal digit run><non-digit trailing>` that
does not begin (after the sign) with a `0x`/`0X` hexadecimal prefix, delete
operates on the signed value of the digit run: `parseInt` returns it and the
handler proceeds with exactly that id; the digit run's value is required to
stay below `2 ^ 53`, the range where `parseInt`'s IEEE double result is
exact.  (With a `0x`/`0X` prefix the code parses hexadecimal instead, as the
counterexample shows.) -/
theorem c10_parseInt_decimal_prefix (s : String)
    (ws sgnL ds rest : List Char) (sg : Int)
    (hsplit : s.data = ws ++ (sgnL ++ (ds ++ rest)))
    (hws : ∀ c ∈ ws, isJsSpace c = true)
    (hsgn : (sgnL = [] ∧ sg = 1) ∨ (sgnL = ['+'] ∧ sg = 1) ∨
      (sgnL = ['-'] ∧ sg = -1))
    (hds : ds ≠ [])
    (hdig : ∀ c ∈ ds, 48 ≤ c.toNat ∧ c.toNat ≤ 57)
    (hrest : ∀ c ∈ rest.take 1, digitVal10 c = none)
    (hnohex : ¬ (ds = ['0'] ∧ ∃ c ∈ rest.take 1,
      c.toNat = 120 ∨ c.toNat = 88))
    (hexact : decimalVal ds < 2 ^ 53) :
    jsParseInt s = some (sg * (decimalVal ds : Int)) ∧
    ∀ env db, deleteProdutos env db s =
      deleteWithId env db (some (sg * (decimalVal ds : Int))) := by
  obtain ⟨d, ds', rfl⟩ : ∃ d ds', ds = d :: ds' := by
    cases ds with
    | nil => exact absurd rfl hds
    | cons d ds' => exact ⟨d, ds', rfl⟩
  have hd0 := hdig d (by simp)
  have hun : jsParseUnsigned ((d :: ds') ++ rest) =
      some (decimalVal (d :: ds')) := by
    have hno : ∀ c0 c1 rest', (d :: ds') ++ rest = c0 :: c1 :: rest' →
        ¬ (c0.toNat = 48 ∧ (c1.toNat = 120 ∨ c1.toNat = 88)) := by
      intro c0 c1 rest' heq hcontra
      obtain ⟨h48, hx⟩ := hcontra
      cases ds' with
      | nil =>
        rw [List.cons_append, List.nil_append] at heq
        injection heq with h1 h2
        refine hnohex ⟨?_, ⟨c1, ?_, hx⟩⟩
        · have hd48 : d.toNat = 48 := by rw [h1]; exact h48
          have hd0' : d = '0' := char_toNat_inj (by rw [hd48]; rfl)
          rw [hd0']
        · rw [h2]
          simp
      | cons d2 ds'' =>
        rw [List.cons_append, List.cons_append] at heq
        injection heq with h1 hrest2
        injection hrest2 with h2 h3
        have hd2 := hdig d2 (by simp)
        rw [← h2] at hx
        omega
    rw [jsParseUnsigned_no_hex hno, parseDigits_run d ds' rest hdig hrest]
  have hdfalse : isJsSpace d = false := by
    simp only [isJsSpace, Bool.or_eq_false_iff, decide_eq_false_iff_not]
    omega
  rcases hsgn with ⟨hs1, hs2⟩ | ⟨hs1, hs2⟩ | ⟨hs1, hs2⟩ <;> subst hs1 <;>
    subst hs2
  · have hdw : s.data.dropWhile isJsSpace = d :: (ds' ++ rest) := by
      rw [hsplit, dropWhile_append_of_all ws _ hws]
      simp [hdfalse]
    have hjs : jsParseInt s = some ((decimalVal (d :: ds') : Nat) : Int) := by
      unfold jsParseInt
      rw [hdw]
      show (if d.toNat = 43 then
          (jsParseUnsigned (ds' ++ rest)).map (fun v => (v : Int))
        else if d.toNat = 45 then
          (jsParseUnsigned (ds' ++ rest)).map (fun v => -(v : Int))
        else (jsParseUnsigned (d :: (ds' ++ rest))).map (fun v => (v : Int)))
        = some ((decimalVal (d :: ds') : Nat) : Int)
      rw [if_neg (by omega : ¬ d.toNat = 43),
        if_neg (by omega : ¬ d.toNat = 45), ← List.cons_append, hun]
      rfl
    refine ⟨by rw [hjs, one_mul], fun env db => ?_⟩
    unfold deleteProdutos
    rw [hjs, one_mul]
  · have hdw : s.data.dropWhile isJsSpace = '+' :: ((d :: ds') ++ rest) := by
      rw [hsplit, dropWhile_append_of_all ws _ hws]
      simp [show isJsSpace '+' = false from by decide]
    have hjs : jsParseInt s = some ((decimalVal (d :: ds') : Nat) : Int) := by
      unfold jsParseInt
      rw [hdw]
      show (if ('+').toNat = 43 then
          (jsParseUnsigned ((d :: ds') ++ rest)).map (fun v => (v : Int))
        else if ('+').toNat = 45 then
          (jsParseUnsigned ((d :: ds') ++ rest)).map (fun v => -(v : Int))
        else (jsParseUnsigned ('+' :: ((d :: ds') ++ rest))).map
          (fun v => (v : Int)))
        = some ((decimalVal (d :: ds') : Nat) : Int)
      rw [if_pos (by decide : ('+').toNat = 43), hun]
      rfl
    refine ⟨by rw [hjs, one_mul], fun env db => ?_⟩
    unfold deleteProdutos
    rw [hjs, one_mul]
  · have hdw : s.data.dropWhile isJsSpace = '-' :: ((d :: ds') ++ rest) := by
      rw [hsplit, dropWhile_append_of_all ws _ hws]
      simp [show isJsSpace '-' = false from by decide]
    have hjs : jsParseInt s = some (-((decimalVal (d :: ds') : Nat) : Int)) := by
      unfold jsParseInt
      rw [hdw]
      show (if ('-').toNat = 43 then
          (jsParseUnsigned ((d :: ds') ++ rest)).map (fun v => (v : Int))
        else if ('-').toNat = 45 then
          (jsParseUnsigned ((d :: ds') ++ rest)).map (fun v => -(v : Int))
        else (jsParseUnsigned ('-' :: ((d :: ds') ++ rest))).map
          (fun v => (v : Int)))
        = some (-((decimalVal (d :: ds') : Nat) : Int))
      rw [if_neg (by decide : ¬ ('-').toNat = 43),
        if_pos (by decide : ('-').toNat = 45), hun]
      rfl
    refine ⟨by rw [hjs, neg_one_mul], fun env db => ?_⟩
    unfold deleteProdutos
    rw [hjs, neg_one_mul]

theorem c10_parseInt_decimal_prefix_witness :
    jsParseInt "\u00A0+12abc" = some 12 ∧
    deleteProdutos ⟨.ok (), .ok (), fun _ => .ok ()⟩ [] "\u00A0+12abc" =
      deleteWithId ⟨.ok (), .ok (), fun _ => .ok ()⟩ [] (some 12) := by
  have h := c10_parseInt_decimal_prefix "\u00A0+12abc" ['\u00A0'] ['+']
    ['1', '2'] "abc".data 1 (by decide) (by decide)
    (Or.inr (Or.inl ⟨rfl, rfl⟩)) (by decide) (by decide) (by decide)
    (by decide) (by decide)
  have h12 : (1 : Int) * ((decimalVal ['1', '2'] : Nat) : Int) = 12 := by
    decide
  rw [h12] at h
  exact ⟨h.1, h.2 _ _⟩

end ImagemPdf
